import Mathlib

/-!
Verification of the Miro DAAP sharing component (`tv/lib/sharing.py`) and the
downloader-daemon HTTP-auth relay (`tv/lib/dl_daemon/private/httpauth.py`)
against their natural-language specification.

Python dictionaries are shallowly embedded as insertion-ordered association
lists with unique keys; `dict[k]` lookups that can raise `KeyError` are
modelled with `Option`, and handlers that can raise propagate an explicit
success flag together with the partially mutated state (a raised exception in
Python leaves the mutations performed so far in place).
-/

set_option maxHeartbeats 1000000

namespace Miro

/-! ## Association-list model of a Python dict -/

/-- Lookup in an insertion-ordered association list; `none` models a
`KeyError` on `dict[k]` access (or `dict.get` returning nothing). -/
def alookup {κ α : Type} [DecidableEq κ] : List (κ × α) → κ → Option α
  | [], _ => none
  | p :: ps, k => if p.1 = k then some p.2 else alookup ps k

/-- Store `dict[k] = v`: replace in place when the key is present (Python
dicts keep the original insertion position), append otherwise. -/
def aset {κ α : Type} [DecidableEq κ] : List (κ × α) → κ → α → List (κ × α)
  | [], k, v => [(k, v)]
  | p :: ps, k, v => if p.1 = k then (k, v) :: ps else p :: aset ps k v

/-- Delete `del dict[k]`: drop every pair with the given key (with unique
keys there is at most one). -/
def adel {κ α : Type} [DecidableEq κ] : List (κ × α) → κ → List (κ × α)
  | [], _ => []
  | p :: ps, k => if p.1 = k then adel ps k else p :: adel ps k

theorem alookup_aset {κ α : Type} [DecidableEq κ] (m : List (κ × α)) (k : κ) (v : α) (k' : κ) :
    alookup (aset m k v) k' = if k = k' then some v else alookup m k' := by
  induction m with
  | nil => simp [aset, alookup]
  | cons p ps ih =>
    by_cases hpk : p.1 = k
    · rw [show aset (p :: ps) k v = (k, v) :: ps by simp [aset, hpk]]
      by_cases hkk : k = k'
      · simp [alookup, hkk]
      · have hpk' : ¬ p.1 = k' := fun h => hkk (hpk.symm.trans h)
        simp [alookup, hkk, hpk']
    · rw [show aset (p :: ps) k v = p :: aset ps k v by simp [aset, hpk]]
      by_cases hpk' : p.1 = k'
      · have hkk : ¬ k = k' := fun h => hpk (h ▸ hpk')
        simp [alookup, hkk, hpk']
      · simp [alookup, hpk', ih]

theorem alookup_adel {κ α : Type} [DecidableEq κ] (m : List (κ × α)) (k : κ) (k' : κ) :
    alookup (adel m k) k' = if k = k' then none else alookup m k' := by
  induction m with
  | nil => simp [adel, alookup]
  | cons p ps ih =>
    by_cases hpk : p.1 = k
    · rw [show adel (p :: ps) k = adel ps k by simp [adel, hpk], ih]
      by_cases hkk : k = k'
      · simp [hkk]
      · have hpk' : ¬ p.1 = k' := fun h => hkk (hpk.symm.trans h)
        simp [alookup, hkk, hpk']
    · rw [show adel (p :: ps) k = p :: adel ps k by simp [adel, hpk]]
      by_cases hpk' : p.1 = k'
      · have hkk : ¬ k = k' := fun h => hpk (h ▸ hpk')
        simp [alookup, hkk, hpk']
      · simp [alookup, hpk', ih]

/-! ## Wire-format values and the item translation (`daap_item_fixup`) -/

/-- Value stored in a DAAP attribute list: a (UTF-8) string or an integer. -/
inductive DaapValue : Type
  | str (s : String)
  | num (n : Int)
deriving DecidableEq, Repr

/-- Wire constant `libdaap.DAAP_MEDIAKIND_AUDIO` (external library; the exact
numeral is opaque to `sharing.py`, only its distinctness matters). -/
def DAAP_MEDIAKIND_AUDIO : Int := 1

/-- Wire constant `libdaap.DAAP_MEDIAKIND_VIDEO`. -/
def DAAP_MEDIAKIND_VIDEO : Int := 2

/-- Neutral-format catalog entry built by `make_item_dict` (the Python dict
`dict(name=..., size=..., duration=..., file_type=..., path=...,
enclosure_format=...)`). -/
structure ItemRecord : Type where
  name : String
  size : Int
  duration : Int
  file_type : String
  path : String
  enclosure_format : String
deriving DecidableEq, Repr

/-- A DAAP-format item: the ordered attribute list built by
`daap_item_fixup`. -/
abbrev DaapItem : Type := List (String × DaapValue)

/-- Embedding of `daap_item_fixup(item_id, entry)` from `sharing.py`: the
direct translations (`minm`, `asfm`, `assz`, `astm`), then `miid`, then the
media kind `aeMK` — VIDEO when `entry['file_type'] == 'video'`, AUDIO for
everything else. Python's `unicode.encode('utf-8')` pass-through is modelled
as the identity on strings. -/
def daap_item_fixup (item_id : Nat) (entry : ItemRecord) : DaapItem :=
  [("minm", DaapValue.str entry.name),
   ("asfm", DaapValue.str entry.enclosure_format),
   ("assz", DaapValue.num entry.size),
   ("astm", DaapValue.num entry.duration),
   ("miid", DaapValue.num (item_id : Int))] ++
  (if entry.file_type = "video"
   then [("aeMK", DaapValue.num DAAP_MEDIAKIND_VIDEO)]
   else [("aeMK", DaapValue.num DAAP_MEDIAKIND_AUDIO)])

/-- C8: the wire media-kind tag `aeMK` is a total function of the item's
media kind: `"video"` maps to the VIDEO wire tag and every other kind
(including `"audio"`) maps to the AUDIO wire tag. -/
theorem daap_item_fixup_media_kind_total (item_id : Nat) (entry : ItemRecord) :
    alookup (daap_item_fixup item_id entry) "aeMK" =
      some (DaapValue.num (if entry.file_type = "video"
                           then DAAP_MEDIAKIND_VIDEO
                           else DAAP_MEDIAKIND_AUDIO)) := by
  by_cases h : entry.file_type = "video" <;>
    simp [daap_item_fixup, alookup, h]

/-! ## Extension derivation (`os.path.splitext` as used in `make_item_dict`) -/

/-- Index of the last occurrence of `c` in `p`, or `none`: Python's
`str.rfind` (which returns `-1` when absent). -/
def lastIdx : List Char → Char → Option Nat
  | [], _ => none
  | a :: as, c =>
    match lastIdx as c with
    | some i => some (i + 1)
    | none => if a = c then some 0 else none

/-- The extension part (`e`, dot included) of posix `os.path.splitext(p)`
(Python ≥ 2.6 `genericpath._splitext` with `sep = '/'`, no `altsep`): when
the last `'.'` lies strictly after the last `'/'` and some character strictly
between them (the leading part of the final component) is not a `'.'`, the
extension is the suffix starting at that last dot; otherwise it is empty
(leading dots of the final component count as part of the root, so dotfiles
have no extension). -/
def splitext_ext (p : List Char) : List Char :=
  match lastIdx p '.', lastIdx p '/' with
  | none, _ => []
  | some dotIndex, none =>
    if (p.take dotIndex).all (fun a => a = '.') then [] else p.drop dotIndex
  | some dotIndex, some sepIndex =>
    if sepIndex < dotIndex then
      if ((p.drop (sepIndex + 1)).take (dotIndex - (sepIndex + 1))).all (fun a => a = '.')
      then []
      else p.drop dotIndex
    else []

/-- The `enclosure_format` computation in `make_item_dict`:
`f, e = os.path.splitext(path); if e: e = e[1:]` — the stored extension,
with the leading dot stripped when nonempty. -/
def enclosureFormat (path : List Char) : List Char :=
  let e := splitext_ext path
  if e ≠ [] then e.drop 1 else e

/-- Final path segment (text after the last `'/'`, or the whole path). -/
def finalSegment (p : List Char) : List Char :=
  match lastIdx p '/' with
  | some s => p.drop (s + 1)
  | none => p

/-- Text after the last `'.'` of a string, or empty when it has no dot. -/
def textAfterLastDot (seg : List Char) : List Char :=
  match lastIdx seg '.' with
  | some d => seg.drop (d + 1)
  | none => []

/-- Modelled from the spec's words for C7 (refinement target, not from the
source): "the extension equals the text after the last '.' of the final path
segment", empty when the segment has no dot. -/
def specExtension (p : List Char) : List Char :=
  textAfterLastDot (finalSegment p)

/-- Amended C7 rule: as `specExtension`, except that when every character of
the final segment strictly before its last `'.'` is itself a `'.'` (a dotfile
such as `".bashrc"`), the extension is empty. -/
def specExtensionAmended (p : List Char) : List Char :=
  let seg := finalSegment p
  match lastIdx seg '.' with
  | none => []
  | some d => if (seg.take d).all (fun a => a = '.') then [] else seg.drop (d + 1)

theorem lastIdx_lt_length {l : List Char} {c : Char} {i : Nat}
    (h : lastIdx l c = some i) : i < l.length := by
  induction l generalizing i with
  | nil => simp [lastIdx] at h
  | cons a as ih =>
    rw [lastIdx] at h
    match hm : lastIdx as c with
    | some j =>
      rw [hm] at h
      simp at h
      subst h
      simpa [List.length_cons, Nat.succ_lt_succ_iff] using ih hm
    | none =>
      rw [hm] at h
      by_cases hac : a = c
      · simp [hac] at h
        subst h
        simp
      · simp [hac] at h

theorem lastIdx_append (a b : List Char) (c : Char) :
    lastIdx (a ++ b) c =
      match lastIdx b c with
      | some j => some (a.length + j)
      | none => lastIdx a c := by
  induction a with
  | nil =>
    match hm : lastIdx b c with
    | some j => simp [hm]
    | none => simp [hm, lastIdx]
  | cons x a' ih =>
    rw [List.cons_append, lastIdx, ih]
    match hm : lastIdx b c with
    | some j =>
      simp only
      rw [show a'.length + j + 1 = (x :: a').length + j by simp [List.length_cons]; omega]
    | none =>
      simp only [lastIdx]

theorem drop_lastIdx {l : List Char} {c : Char} {i : Nat}
    (h : lastIdx l c = some i) : l.drop i = c :: l.drop (i + 1) := by
  induction l generalizing i with
  | nil => simp [lastIdx] at h
  | cons a as ih =>
    rw [lastIdx] at h
    match hm : lastIdx as c with
    | some j =>
      rw [hm] at h
      simp at h
      subst h
      simpa using ih hm
    | none =>
      rw [hm] at h
      by_cases hac : a = c
      · simp [hac] at h
        subst h
        simp [hac]
      · simp [hac] at h

/-- Action of `splitext_ext` on a path's final segment alone (no `'/'`
handling): helper characterization used to bridge to the per-segment rules. -/
def splitext_ext_seg (seg : List Char) : List Char :=
  match lastIdx seg '.' with
  | none => []
  | some d => if (seg.take d).all (fun a => a = '.') then [] else seg.drop d

theorem splitext_ext_append (t seg : List Char) (s : Nat) (ht : t.length = s + 1)
    (hsep : lastIdx (t ++ seg) '/' = some s) :
    splitext_ext (t ++ seg) = splitext_ext_seg seg := by
  match hd : lastIdx seg '.' with
  | some j =>
    have hdot : lastIdx (t ++ seg) '.' = some (t.length + j) := by
      rw [lastIdx_append, hd]
    rw [splitext_ext, hdot, hsep, splitext_ext_seg, hd]
    have hlt : s < t.length + j := by omega
    simp only [if_pos hlt]
    have hdrop1 : (t ++ seg).drop (s + 1) = seg := by
      rw [← ht, List.drop_left]
    have hdrop2 : (t ++ seg).drop (t.length + j) = seg.drop j := List.drop_append j
    rw [hdrop1, hdrop2, show t.length + j - (s + 1) = j by omega]
  | none =>
    have hdot : lastIdx (t ++ seg) '.' = lastIdx t '.' := by
      rw [lastIdx_append, hd]
    rw [splitext_ext, hdot, hsep, splitext_ext_seg, hd]
    match hdt : lastIdx t '.' with
    | none => rfl
    | some d' =>
      have : d' < t.length := lastIdx_lt_length hdt
      have hnlt : ¬ s < d' := by omega
      simp only [if_neg hnlt]

theorem splitext_ext_eq_seg (p : List Char) :
    splitext_ext p = splitext_ext_seg (finalSegment p) := by
  match hs : lastIdx p '/' with
  | none =>
    have hseg : finalSegment p = p := by rw [finalSegment, hs]
    rw [hseg, splitext_ext, hs, splitext_ext_seg]
    match hd : lastIdx p '.' with
    | none => rfl
    | some d => rfl
  | some s =>
    have hslen : s < p.length := lastIdx_lt_length hs
    have hp : p.take (s + 1) ++ p.drop (s + 1) = p := List.take_append_drop (s + 1) p
    have ht : (p.take (s + 1)).length = s + 1 :=
      List.length_take_of_le (by omega)
    have hseg : finalSegment p = p.drop (s + 1) := by rw [finalSegment, hs]
    calc splitext_ext p
        = splitext_ext (p.take (s + 1) ++ p.drop (s + 1)) := by rw [hp]
      _ = splitext_ext_seg (p.drop (s + 1)) :=
          splitext_ext_append _ _ s ht (by rw [hp, hs])
      _ = splitext_ext_seg (finalSegment p) := by rw [hseg]

/-- C7 (amended): the stored format extension is the text after the last
`'.'` of the final path segment — except when every character of the segment
before that last dot is itself a dot (a dotfile), in which case the extension
is empty; a segment with no dot also yields the empty extension. Includes the
spec's two worked examples. -/
theorem enclosureFormat_amended_rule :
    (∀ p : List Char, enclosureFormat p = specExtensionAmended p) ∧
    enclosureFormat "movie.mp4".toList = "mp4".toList ∧
    enclosureFormat "movie".toList = [] := by
  refine ⟨fun p => ?_, by decide, by decide⟩
  have hbridge := splitext_ext_eq_seg p
  match hd : lastIdx (finalSegment p) '.' with
  | none =>
    have hseg : splitext_ext_seg (finalSegment p) = [] := by rw [splitext_ext_seg, hd]
    rw [enclosureFormat, hbridge, hseg]
    simp [specExtensionAmended, hd]
  | some d =>
    by_cases hall : ((finalSegment p).take d).all (fun a => a = '.')
    · have hseg : splitext_ext_seg (finalSegment p) = [] := by
        rw [splitext_ext_seg, hd]
        simp [hall]
      rw [enclosureFormat, hbridge, hseg]
      simp [specExtensionAmended, hd, hall]
    · have hdrop : (finalSegment p).drop d = '.' :: (finalSegment p).drop (d + 1) :=
        drop_lastIdx hd
      have hseg : splitext_ext_seg (finalSegment p) = '.' :: (finalSegment p).drop (d + 1) := by
        rw [splitext_ext_seg, hd]
        simp [hall, hdrop]
      rw [enclosureFormat, hbridge, hseg]
      simp [specExtensionAmended, hd, hall]

/-- C7 (counterexample): for the dotfile path `".bashrc"` the code derives
the empty extension, while the claim's rule ("text after the last '.' of the
final segment") demands `"bashrc"`. -/
theorem enclosureFormat_dotfile_counterexample :
    enclosureFormat ".bashrc".toList = [] ∧
    specExtension ".bashrc".toList = "bashrc".toList ∧
    enclosureFormat ".bashrc".toList ≠ specExtension ".bashrc".toList := by
  refine ⟨by decide, by decide, by decide⟩

/-! ## The catalog backend (`SharingManagerBackend`) -/

/-- The fields of a `messages.ItemInfo` read by `make_item_dict`. -/
structure ItemInfo : Type where
  id : Nat
  name : String
  size : Int
  duration : Int
  file_type : String
  video_path : String
deriving DecidableEq, Repr

/-- The mutable dictionaries of `SharingManagerBackend`: the neutral-format
item table, the DAAP-format item table, the DAAP-format playlist table, and
the playlist-to-item-ids map. -/
structure BackendState : Type where
  items : List (Nat × ItemRecord)
  daapitems : List (Nat × DaapItem)
  daap_playlists : List (Nat × DaapItem)
  playlist_item_map : List (Nat × List Nat)
deriving DecidableEq, Repr

/-- The class-attribute initial state: all four dicts start empty. -/
def initBackend : BackendState := ⟨[], [], [], []⟩

/-- The neutral-format entry that one loop iteration of `make_item_dict`
builds for an incoming record: the interesting fields plus the extension
stripped off the file path. -/
def make_item_entry (x : ItemInfo) : ItemRecord :=
  { name := x.name, size := x.size, duration := x.duration,
    file_type := x.file_type, path := x.video_path,
    enclosure_format := String.mk (enclosureFormat x.video_path.toList) }

/-- Embedding of `make_item_dict(items)`: for each incoming record, store
the neutral entry in `items` and its `daap_item_fixup` translation (of the
just-stored entry, `self.items[x.id]`) in `daapitems`, in lockstep. -/
def make_item_dict (st : BackendState) (xs : List ItemInfo) : BackendState :=
  xs.foldl
    (fun st x =>
      { st with
        items := aset st.items x.id (make_item_entry x),
        daapitems := aset st.daapitems x.id (daap_item_fixup x.id (make_item_entry x)) })
    st

/-- Embedding of `handle_item_list(message)`. -/
def handle_item_list (st : BackendState) (xs : List ItemInfo) : BackendState :=
  make_item_dict st xs

/-- One iteration of the removed-branch of `handle_items_changed`:
`del self.items[x.id]; del self.daapitems[x.id]`. A `del` on a missing key
raises `KeyError`: the flag is `false` and the mutations performed before the
raise remain. -/
def del_item (st : BackendState) (i : Nat) : BackendState × Bool :=
  match alookup st.items i with
  | none => (st, false)
  | some _ =>
    let st1 : BackendState := { st with items := adel st.items i }
    match alookup st1.daapitems i with
    | none => (st1, false)
    | some _ => ({ st1 with daapitems := adel st1.daapitems i }, true)

/-- The `for x in message.removed` loop of `handle_items_changed`; stops at
the first raised `KeyError`. -/
def del_items_loop : BackendState → List Nat → BackendState × Bool
  | st, [] => (st, true)
  | st, i :: is =>
    match del_item st i with
    | (st1, true) => del_items_loop st1 is
    | (st1, false) => (st1, false)

/-- Embedding of `handle_items_changed(message)`: redelete the removed
entries, then recreate the added and the changed entries. -/
def handle_items_changed (st : BackendState) (removed : List Nat)
    (added changed : List ItemInfo) : BackendState × Bool :=
  match del_items_loop st removed with
  | (st1, true) => (make_item_dict (make_item_dict st1 added) changed, true)
  | (st1, false) => (st1, false)

/-- The `for x in removed` loop of `handle_playlist_removed`:
`del self.daap_playlists[x.id]`, raising `KeyError` on a missing key. -/
def handle_playlist_removed_loop : BackendState → List Nat → BackendState × Bool
  | st, [] => (st, true)
  | st, i :: is =>
    match alookup st.daap_playlists i with
    | none => (st, false)
    | some _ =>
      handle_playlist_removed_loop
        { st with daap_playlists := adel st.daap_playlists i } is

/-- Embedding of `handle_playlist_removed(obj, removed)`. -/
def handle_playlist_removed (st : BackendState) (removed : List Nat) :
    BackendState × Bool :=
  handle_playlist_removed_loop st removed

/-- The error raised inside the playlist branch of `get_items`: iterating a
Python dict yields its bare integer keys, and `x.id` on an `int` raises
`AttributeError` (the bare name `playlist_item_map` is also undefined in that
scope). -/
def getItemsAttrError : String := "AttributeError: int has no attribute id"

/-- Result of `get_items`: the whole DAAP-item dict, a filtered list, or a
raised exception. -/
inductive GetItemsResult : Type
  | dict (m : List (Nat × DaapItem))
  | list (l : List DaapItem)
  | error (msg : String)
deriving DecidableEq, Repr

/-- Embedding of `get_items(playlist_id=None)`: a falsy `playlist_id`
(`None` or `0`) returns the whole `daapitems` dict; otherwise the list
comprehension `[x for x in self.daapitems if x.id in
playlist_item_map[playlist_id]]` yields `[]` on an empty dict and raises
`AttributeError` on the first key otherwise (dict iteration yields keys). -/
def get_items (st : BackendState) (playlist_id : Option Nat) : GetItemsResult :=
  match playlist_id with
  | none => GetItemsResult.dict st.daapitems
  | some pid =>
    if pid = 0 then GetItemsResult.dict st.daapitems
    else
      match st.daapitems with
      | [] => GetItemsResult.list []
      | _ :: _ => GetItemsResult.error getItemsAttrError

/-- Catalog change-feed events driving the backend (the two item-tracking
callbacks registered by `start_tracking`). -/
inductive BackendEvent : Type
  | itemList (xs : List ItemInfo)
  | itemsChanged (removed : List Nat) (added changed : List ItemInfo)

/-- One delivered notification; a raised `KeyError` leaves the partially
mutated state in place (the backend object survives the exception). -/
def backend_step (st : BackendState) (e : BackendEvent) : BackendState :=
  match e with
  | BackendEvent.itemList xs => handle_item_list st xs
  | BackendEvent.itemsChanged removed added changed =>
    (handle_items_changed st removed added changed).1

/-- State of the backend after a sequence of catalog notifications. -/
def run_backend (evs : List BackendEvent) : BackendState :=
  evs.foldl backend_step initBackend

/-- The translated-item table mirrors the item table exactly: same keys, and
each stored DAAP item is the `daap_item_fixup` translation of the current
catalog entry. -/
def ItemsConsistent (st : BackendState) : Prop :=
  ∀ i : Nat,
    (alookup st.items i = none ∧ alookup st.daapitems i = none) ∨
    (∃ e, alookup st.items i = some e ∧
          alookup st.daapitems i = some (daap_item_fixup i e))

theorem ItemsConsistent_make_item_dict (xs : List ItemInfo) :
    ∀ st : BackendState, ItemsConsistent st → ItemsConsistent (make_item_dict st xs) := by
  induction xs with
  | nil => intro st h; simpa [make_item_dict] using h
  | cons x xs ih =>
    intro st h
    rw [show make_item_dict st (x :: xs) =
          make_item_dict (make_item_dict st [x]) xs by rfl]
    apply ih
    intro i
    by_cases hix : x.id = i
    · right
      refine ⟨make_item_entry x, ?_, ?_⟩
      · simp [make_item_dict, alookup_aset, hix]
      · simp [make_item_dict, alookup_aset, hix]
    · rcases h i with ⟨h1, h2⟩ | ⟨e, h1, h2⟩
      · left
        constructor <;> simp [make_item_dict, alookup_aset, hix, h1, h2]
      · right
        exact ⟨e, by simp [make_item_dict, alookup_aset, hix, h1],
                  by simp [make_item_dict, alookup_aset, hix, h2]⟩

theorem ItemsConsistent_del_items_loop (is : List Nat) :
    ∀ st : BackendState, ItemsConsistent st →
      ItemsConsistent (del_items_loop st is).1 := by
  induction is with
  | nil => intro st h; simpa [del_items_loop] using h
  | cons i is ih =>
    intro st h
    rw [del_items_loop]
    match h1 : alookup st.items i with
    | none => simp [del_item, h1]; exact h
    | some e =>
      rcases h i with ⟨h1', _⟩ | ⟨e', h1', h2'⟩
      · rw [h1] at h1'; cases h1'
      · have h2 : alookup st.daapitems i = some (daap_item_fixup i e') := h2'
        rw [del_item, h1]
        simp only [h2]
        have hdel : ItemsConsistent
            { st with items := adel st.items i, daapitems := adel st.daapitems i } := by
          intro j
          by_cases hij : i = j
          · left; constructor <;> simp [alookup_adel, hij]
          · rcases h j with ⟨g1, g2⟩ | ⟨f, g1, g2⟩
            · left; constructor <;> simp [alookup_adel, hij, g1, g2]
            · right; exact ⟨f, by simp [alookup_adel, hij, g1],
                               by simp [alookup_adel, hij, g2]⟩
        exact ih _ hdel

theorem ItemsConsistent_backend_step (st : BackendState) (e : BackendEvent)
    (h : ItemsConsistent st) : ItemsConsistent (backend_step st e) := by
  match e with
  | BackendEvent.itemList xs =>
    exact ItemsConsistent_make_item_dict xs _ h
  | BackendEvent.itemsChanged removed added changed =>
    show ItemsConsistent (handle_items_changed st removed added changed).1
    rw [handle_items_changed]
    have hloop := ItemsConsistent_del_items_loop removed st h
    match hm : del_items_loop st removed with
    | (st1, true) =>
      rw [hm] at hloop
      exact ItemsConsistent_make_item_dict changed _
        (ItemsConsistent_make_item_dict added _ hloop)
    | (st1, false) =>
      rw [hm] at hloop
      exact hloop

theorem ItemsConsistent_foldl (evs : List BackendEvent) :
    ∀ st : BackendState, ItemsConsistent st →
      ItemsConsistent (evs.foldl backend_step st) := by
  induction evs with
  | nil => intro st h; simpa using h
  | cons e evs ih =>
    intro st h
    rw [List.foldl_cons]
    exact ih _ (ItemsConsistent_backend_step st e h)

/-- C4: after every sequence of catalog mutations delivered through
`handle_item_list` and `handle_items_changed`, the DAAP-item table has
exactly the keys of the item table and every stored DAAP item equals the
`daap_item_fixup` translation of the current catalog entry — no stale
translation survives. -/
theorem run_backend_items_consistent (evs : List BackendEvent) :
    ItemsConsistent (run_backend evs) :=
  ItemsConsistent_foldl evs initBackend (fun _ => Or.inl ⟨rfl, rfl⟩)

/-- C3 (counterexample): removing identifier 5 from the empty state raises a
`KeyError` (the success flag is `false`) both in `handle_playlist_removed`
and in the removed-branch of `handle_items_changed`, refuting "removal with
an absent identifier does not raise an error". -/
theorem removal_missing_id_counterexample :
    (handle_playlist_removed initBackend [5]).2 = false ∧
    (handle_items_changed initBackend [5] [] []).2 = false := by
  constructor <;> rfl

/-- C3 (amended): removal is not idempotent; `del` on an identifier that is
absent raises `KeyError` (leaving the state as already mutated, i.e.
unchanged for a single-identifier call), removal of a present identifier
deletes its entry, and repeating a removal therefore raises. The same holds
for the removed-branch of `handle_items_changed`. -/
theorem removal_requires_presence :
    (∀ (st : BackendState) (i : Nat),
       alookup st.daap_playlists i = none →
       handle_playlist_removed st [i] = (st, false)) ∧
    (∀ (st : BackendState) (i : Nat) (v : DaapItem),
       alookup st.daap_playlists i = some v →
       handle_playlist_removed st [i] =
         ({ st with daap_playlists := adel st.daap_playlists i }, true)) ∧
    (∀ (st : BackendState) (i : Nat) (v : DaapItem),
       alookup st.daap_playlists i = some v →
       (handle_playlist_removed (handle_playlist_removed st [i]).1 [i]).2 = false) ∧
    (∀ (st : BackendState) (i : Nat),
       alookup st.items i = none →
       handle_items_changed st [i] [] [] = (st, false)) := by
  have h1 : ∀ (st : BackendState) (i : Nat),
      alookup st.daap_playlists i = none →
      handle_playlist_removed st [i] = (st, false) := by
    intro st i h
    rw [handle_playlist_removed, handle_playlist_removed_loop, h]
  have h2 : ∀ (st : BackendState) (i : Nat) (v : DaapItem),
      alookup st.daap_playlists i = some v →
      handle_playlist_removed st [i] =
        ({ st with daap_playlists := adel st.daap_playlists i }, true) := by
    intro st i v h
    rw [handle_playlist_removed, handle_playlist_removed_loop, h]
    rfl
  refine ⟨h1, h2, ?_, ?_⟩
  · intro st i v h
    rw [h2 st i v h]
    have habs : alookup (adel st.daap_playlists i) i = none := by
      rw [alookup_adel]
      simp
    show (handle_playlist_removed { st with daap_playlists := adel st.daap_playlists i } [i]).2 = false
    rw [h1 _ i habs]
  · intro st i h
    rw [handle_items_changed, del_items_loop, del_item, h]

/-- C3 (witness): the amended statements at concrete states — removing the
absent playlist 7 raises and leaves the table as it was, and removing
playlist 3 twice raises on the second call. -/
theorem removal_requires_presence_witness :
    handle_playlist_removed ⟨[], [], [(3, [("minm", DaapValue.str "t")])], []⟩ [7] =
      (⟨[], [], [(3, [("minm", DaapValue.str "t")])], []⟩, false) ∧
    (handle_playlist_removed
      (handle_playlist_removed ⟨[], [], [(3, [("minm", DaapValue.str "t")])], []⟩ [3]).1
      [3]).2 = false ∧
    handle_items_changed ⟨[], [], [], []⟩ [7] [] [] = (⟨[], [], [], []⟩, false) :=
  ⟨removal_requires_presence.1 ⟨[], [], [(3, [("minm", DaapValue.str "t")])], []⟩ 7 rfl,
   removal_requires_presence.2.2.1 ⟨[], [], [(3, [("minm", DaapValue.str "t")])], []⟩ 3
     [("minm", DaapValue.str "t")] rfl,
   removal_requires_presence.2.2.2 ⟨[], [], [], []⟩ 7 rfl⟩

/-- C5 (counterexample): with one translated item in the table, asking for
the members of playlist 7 — absent from the playlist index — raises an
`AttributeError` instead of returning an empty collection. -/
theorem get_items_unknown_playlist_counterexample :
    get_items ⟨[], [(1, [("miid", DaapValue.num 1)])], [], []⟩ (some 7) =
      GetItemsResult.error getItemsAttrError ∧
    ∀ l : List DaapItem,
      get_items ⟨[], [(1, [("miid", DaapValue.num 1)])], [], []⟩ (some 7) ≠
        GetItemsResult.list l := by
  constructor
  · rfl
  · intro l h
    cases h

/-- C5 (amended): for every nonzero playlist identifier — present in the
playlist index or not — `get_items` returns the empty list when the
translated-item table is empty and raises `AttributeError` when it is
nonempty (the comprehension iterates the dict's bare keys); the playlist's
actual members are never returned. -/
theorem get_items_playlist_branch (st : BackendState) (pid : Nat) (h : pid ≠ 0) :
    get_items st (some pid) =
      (match st.daapitems with
       | [] => GetItemsResult.list []
       | _ :: _ => GetItemsResult.error getItemsAttrError) := by
  rw [get_items, if_neg h]

/-- C5 (witness): the amended statement at concrete inputs — unknown
playlist 7 against an empty item table yields the empty list, and against a
one-item table raises. -/
theorem get_items_playlist_branch_witness :
    get_items ⟨[], [], [], []⟩ (some 7) = GetItemsResult.list [] ∧
    get_items ⟨[], [(1, [("miid", DaapValue.num 1)])], [], []⟩ (some 9) =
      GetItemsResult.error getItemsAttrError :=
  ⟨get_items_playlist_branch ⟨[], [], [], []⟩ 7 (by decide),
   get_items_playlist_branch ⟨[], [(1, [("miid", DaapValue.num 1)])], [], []⟩ 9 (by decide)⟩

/-! ## The sharing session controller (`SharingManager`) -/

/-- Instance attributes of `SharingManager` that the lifecycle methods touch.
`mdns_ref`, `server` and `thread` are created with assignment and destroyed
with `del`, so their existence is modelled with `Option` (the payload is an
opaque handle; accessing a deleted attribute raises `AttributeError`). -/
structure SMState : Type where
  sharing : Bool
  discoverable : Bool
  mdns_ref : Option Nat
  server : Option Nat
  thread : Option Nat
deriving DecidableEq, Repr

/-- Externally observable side effects of the lifecycle methods, in program
order. -/
inductive Action : Type
  | installMdns
  | uninstallMdns
  | bindServer
  | shutdownServer
deriving DecidableEq, Repr

/-- Result of running one method: the object state afterwards, whether the
method completed without raising, and the side effects it performed. A raise
keeps the mutations made before it. -/
structure StepResult : Type where
  state : SMState
  ok : Bool
  trace : List Action
deriving DecidableEq, Repr

/-- The state of a freshly constructed `SharingManager` before its
`__init__` calls `twiddle_sharing`: sharing and discoverable are false and
no handle attribute exists. -/
def initSM : SMState := ⟨false, false, none, none, none⟩

/-- Embedding of `enable_discover`: `install_mdns` then `self.mdns_ref`
assignment and `self.discoverable = True`; if the mDNS registration raises,
nothing was assigned. `mdnsOk` is the environment's verdict on the external
`libdaap.install_mdns` call. -/
def enable_discover (s : SMState) (mdnsOk : Bool) : StepResult :=
  if mdnsOk then
    ⟨{ s with mdns_ref := some 0, discoverable := true }, true, [Action.installMdns]⟩
  else
    ⟨s, false, []⟩

/-- Embedding of `disable_discover`: sets `self.discoverable = False`, then
`uninstall_mdns(self.mdns_ref)` and `del self.mdns_ref` — which raises
`AttributeError` when `mdns_ref` does not exist (it was never assigned or
already deleted). -/
def disable_discover (s : SMState) : StepResult :=
  match s.mdns_ref with
  | some _ =>
    ⟨{ s with discoverable := false, mdns_ref := none }, true, [Action.uninstallMdns]⟩
  | none =>
    ⟨{ s with discoverable := false }, false, []⟩

/-- Embedding of `enable_sharing`: try to create the DAAP server (bind) and
start the server thread, setting `self.sharing = True`; an `OSError` (e.g.
`EADDRINUSE`) from the bind is caught and sets `self.sharing = False`
without assigning `server` or `thread`. The method returns `self.sharing`
and never raises. `bindOk` is the environment's verdict on the bind. -/
def enable_sharing (s : SMState) (bindOk : Bool) : StepResult :=
  if bindOk then
    ⟨{ s with server := some 0, thread := some 0, sharing := true }, true,
     [Action.bindServer]⟩
  else
    ⟨{ s with sharing := false }, true, []⟩

/-- Embedding of `disable_sharing`: `self.sharing = False`, then
`self.server.shutdown()`, `self.thread.join()`, `del self.thread`,
`del self.server`; a missing `server` attribute raises before the shutdown,
a missing `thread` raises after it. -/
def disable_sharing (s : SMState) : StepResult :=
  match s.server with
  | none => ⟨{ s with sharing := false }, false, []⟩
  | some sv =>
    match s.thread with
    | none => ⟨{ s with sharing := false, server := some sv }, false, [Action.shutdownServer]⟩
    | some _ =>
      ⟨{ s with sharing := false, server := none, thread := none }, true,
       [Action.shutdownServer]⟩

/-- The tail of `twiddle_sharing` from `if not self.sharing: return`
onwards: reconcile the discoverable flag only while sharing is on. -/
def reconcile_discover (s : SMState) (discoverable mdnsOk : Bool) : StepResult :=
  if s.sharing = false then ⟨s, true, []⟩
  else if discoverable ≠ s.discoverable then
    if discoverable then enable_discover s mdnsOk
    else disable_discover s
  else ⟨s, true, []⟩

/-- Embedding of `twiddle_sharing`: compare the two configuration flags
(`sharing`, `discoverable`) against the current state; reconcile sharing
first (an `enable_sharing` failure returns immediately; disabling calls
`disable_discover` then `disable_sharing`), then — only if still sharing —
reconcile discoverability. -/
def twiddle_sharing (s : SMState) (sharing discoverable bindOk mdnsOk : Bool) :
    StepResult :=
  if sharing ≠ s.sharing then
    if sharing then
      let r := enable_sharing s bindOk
      if r.state.sharing = false then ⟨r.state, true, r.trace⟩
      else
        let t := reconcile_discover r.state discoverable mdnsOk
        ⟨t.state, t.ok, r.trace ++ t.trace⟩
    else
      let d := disable_discover s
      if d.ok = false then ⟨d.state, false, d.trace⟩
      else
        let e := disable_sharing d.state
        if e.ok = false then ⟨e.state, false, d.trace ++ e.trace⟩
        else
          let t := reconcile_discover e.state discoverable mdnsOk
          ⟨t.state, t.ok, d.trace ++ e.trace ++ t.trace⟩
  else
    reconcile_discover s discoverable mdnsOk

/-- States of the `SharingManager` reachable from construction by any
sequence of configuration-change notifications (each of which runs
`twiddle_sharing` with the current configuration flags and environment
verdicts). -/
inductive SMReachable : SMState → Prop
  | init : SMReachable initSM
  | step {s : SMState} (cs cd bo mo : Bool) :
      SMReachable s → SMReachable (twiddle_sharing s cs cd bo mo).state

/-- Inductive invariant of the controller: discovery implies sharing, the
mDNS handle exists exactly while discoverable, and the server and thread
handles exist exactly while sharing. -/
def SMInv (s : SMState) : Prop :=
  (s.discoverable = true → s.sharing = true) ∧
  s.mdns_ref.isSome = s.discoverable ∧
  s.server.isSome = s.sharing ∧
  s.thread.isSome = s.sharing

theorem SMInv_step (s : SMState) (cs cd bo mo : Bool) (h : SMInv s) :
    SMInv (twiddle_sharing s cs cd bo mo).state := by
  obtain ⟨h1, h2, h3, h4⟩ := h
  obtain ⟨sh, di, m, sv, th⟩ := s
  simp only at h1 h2 h3 h4
  cases sh <;> cases di <;> cases cs <;> cases cd <;> cases bo <;> cases mo <;>
    cases m <;> cases sv <;> cases th <;>
    simp_all [twiddle_sharing, reconcile_discover, enable_sharing, disable_sharing,
              enable_discover, disable_discover, SMInv]

theorem SMReachable_inv {s : SMState} (h : SMReachable s) : SMInv s := by
  induction h with
  | init => exact ⟨by simp [initSM], by simp [initSM], by simp [initSM], by simp [initSM]⟩
  | step cs cd bo mo _ ih => exact SMInv_step _ cs cd bo mo ih

/-- C1: discovery is never active without a live sharing session. In every
reachable controller state, discoverable implies sharing; a configuration
change with sharing off and the session stopped returns before reconciling
discoverability (no mDNS action, state untouched); and turning sharing off
while discoverable withdraws the mDNS registration strictly before shutting
the listener down (the action trace is exactly withdraw-then-shutdown). -/
theorem discover_never_without_sharing :
    (∀ s : SMState, SMReachable s → s.discoverable = true → s.sharing = true) ∧
    (∀ (s : SMState) (cd bo mo : Bool), s.sharing = false →
       twiddle_sharing s false cd bo mo = ⟨s, true, []⟩) ∧
    (∀ (s : SMState) (cd bo mo : Bool), SMReachable s →
       s.sharing = true → s.discoverable = true →
       (twiddle_sharing s false cd bo mo).trace =
         [Action.uninstallMdns, Action.shutdownServer]) := by
  refine ⟨fun s h => (SMReachable_inv h).1, ?_, ?_⟩
  · intro s cd bo mo h
    simp [twiddle_sharing, reconcile_discover, h]
  · intro s cd bo mo hr hsh hdi
    obtain ⟨h1, h2, h3, h4⟩ := SMReachable_inv hr
    obtain ⟨sh, di, m, sv, th⟩ := s
    simp only at h2 h3 h4 hsh hdi
    subst hsh
    subst hdi
    cases m <;> cases sv <;> cases th <;>
      simp_all [twiddle_sharing, disable_discover, disable_sharing, reconcile_discover]

/-- C1 (witness): starting from the initial state, one configuration change
enables sharing and discovery (so the invariant is checked on a live
discoverable state), a disable request on the stopped initial state is a
no-op, and disabling sharing from the discoverable state traces
mDNS-withdrawal strictly before listener shutdown. -/
theorem discover_never_without_sharing_witness :
    (twiddle_sharing initSM true true true true).state.sharing = true ∧
    twiddle_sharing initSM false true true true = ⟨initSM, true, []⟩ ∧
    (twiddle_sharing (twiddle_sharing initSM true true true true).state
        false false true true).trace =
      [Action.uninstallMdns, Action.shutdownServer] :=
  ⟨discover_never_without_sharing.1 _
     (SMReachable.step true true true true SMReachable.init) rfl,
   discover_never_without_sharing.2.1 initSM true true true rfl,
   discover_never_without_sharing.2.2 _ false true true
     (SMReachable.step true true true true SMReachable.init) rfl rfl⟩

/-- C2: when the bind fails, `enable_sharing` catches the `OSError`, leaves
the session stopped (`sharing = false`, reported to the caller as the
returned `self.sharing`), assigns no server or thread handle, and
`twiddle_sharing` returns immediately without retrying (empty action trace,
no bind attempt left pending). -/
theorem enable_sharing_bind_failure :
    (∀ s : SMState, enable_sharing s false = ⟨{ s with sharing := false }, true, []⟩) ∧
    (∀ (s : SMState) (cd mo : Bool), SMReachable s → s.sharing = false →
       (twiddle_sharing s true cd false mo).state.sharing = false ∧
       (twiddle_sharing s true cd false mo).state.server = none ∧
       (twiddle_sharing s true cd false mo).state.thread = none ∧
       (twiddle_sharing s true cd false mo).ok = true ∧
       (twiddle_sharing s true cd false mo).trace = []) := by
  refine ⟨fun s => by simp [enable_sharing], ?_⟩
  intro s cd mo hr hsh
  obtain ⟨h1, h2, h3, h4⟩ := SMReachable_inv hr
  obtain ⟨sh, di, m, sv, th⟩ := s
  simp only at h2 h3 h4 hsh
  subst hsh
  cases sv <;> cases th <;> simp_all [twiddle_sharing, enable_sharing]

/-- C2 (witness): enabling sharing from the initial state with the port
unavailable leaves everything stopped, reports failure, and performs no
action. -/
theorem enable_sharing_bind_failure_witness :
    enable_sharing initSM false = ⟨initSM, true, []⟩ ∧
    (twiddle_sharing initSM true true false true).state.sharing = false ∧
    (twiddle_sharing initSM true true false true).state.thread = none ∧
    (twiddle_sharing initSM true true false true).trace = [] :=
  ⟨enable_sharing_bind_failure.1 initSM,
   (enable_sharing_bind_failure.2 initSM true true SMReachable.init rfl).1,
   (enable_sharing_bind_failure.2 initSM true true SMReachable.init rfl).2.2.1,
   (enable_sharing_bind_failure.2 initSM true true SMReachable.init rfl).2.2.2.2⟩

/-- C9: a configuration reconciliation requesting sharing while the session
is already running does not rebind the listener or create a new server or
thread: the sharing flag and both handles are untouched, no bind or shutdown
action occurs, and if the discoverable flag also matches, the call is a
complete no-op that completes normally. -/
theorem enable_while_running_noop (s : SMState) (cd bo mo : Bool)
    (h : s.sharing = true) :
    (twiddle_sharing s true cd bo mo).state.sharing = true ∧
    (twiddle_sharing s true cd bo mo).state.server = s.server ∧
    (twiddle_sharing s true cd bo mo).state.thread = s.thread ∧
    Action.bindServer ∉ (twiddle_sharing s true cd bo mo).trace ∧
    Action.shutdownServer ∉ (twiddle_sharing s true cd bo mo).trace ∧
    (cd = s.discoverable → twiddle_sharing s true cd bo mo = ⟨s, true, []⟩) := by
  obtain ⟨sh, di, m, sv, th⟩ := s
  simp only at h
  subst h
  cases di <;> cases cd <;> cases bo <;> cases mo <;> cases m <;>
    simp_all [twiddle_sharing, reconcile_discover, enable_discover, disable_discover]

/-- C9 (witness): a second enable request against a running session with
matching discoverability is exactly a no-op. -/
theorem enable_while_running_noop_witness :
    twiddle_sharing ⟨true, false, none, some 0, some 0⟩ true false true true =
      ⟨⟨true, false, none, some 0, some 0⟩, true, []⟩ :=
  (enable_while_running_noop ⟨true, false, none, some 0, some 0⟩ false true true
    rfl).2.2.2.2.2 rfl

/-- C6 (counterexample): withdrawing discovery from a live discoverable
session succeeds, but calling `disable_discover` a second time — after the
registration has already been withdrawn — raises `AttributeError` (the
`mdns_ref` attribute was deleted by the first call), refuting "succeeds
without error". -/
theorem disable_discover_second_call_counterexample :
    (disable_discover ⟨true, true, some 0, some 0, some 0⟩).ok = true ∧
    (disable_discover (disable_discover ⟨true, true, some 0, some 0, some 0⟩).state).ok
      = false := by
  constructor <;> rfl

/-- C6 (amended): `disable_discover` is not idempotent: a second call after
any withdrawal raises `AttributeError` because `del self.mdns_ref` removed
the attribute; it still leaves the state unchanged (discoverable was already
false and no other field is touched) and performs no mDNS action. -/
theorem disable_discover_not_idempotent (s : SMState) :
    disable_discover (disable_discover s).state =
      ⟨(disable_discover s).state, false, []⟩ := by
  obtain ⟨sh, di, m, sv, th⟩ := s
  cases m <;> simp [disable_discover]

/-! ## The downloader-daemon HTTP-auth relay (`dl_daemon/private/httpauth.py`) -/

/-- Module-level state of the relay: the `itertools.count()` generator
(its next value) and the `waitingHTTPAuthCallbacks` dictionary mapping
request id to the registered callback (callbacks are modelled as opaque
tokens). -/
structure AuthState : Type where
  counter : Nat
  pending : List (Nat × Nat)
deriving DecidableEq, Repr

/-- Embedding of `find_http_auth(callback, host, path)`: draw a fresh id
from the shared counter, register the callback under it, and hand the id to
the daemon command (returned here). The host/path payload does not affect
the relay state. -/
def find_http_auth (st : AuthState) (cb : Nat) : AuthState × Nat :=
  ({ counter := st.counter + 1, pending := aset st.pending st.counter cb }, st.counter)

/-- Embedding of `askForHTTPAuth(callback, host, path, authScheme)`: the
same id-draw and registration as `find_http_auth`, feeding a different
daemon command. -/
def askForHTTPAuth (st : AuthState) (cb : Nat) : AuthState × Nat :=
  ({ counter := st.counter + 1, pending := aset st.pending st.counter cb }, st.counter)

/-- Embedding of `handle_http_auth_response(id_, authHeader)`:
`waitingHTTPAuthCallbacks.pop(id_)` removes the callback before it is
invoked; `pop` on an unknown id raises `KeyError` (`none`, no callback
invoked, state unchanged). -/
def handle_http_auth_response (st : AuthState) (i : Nat) : AuthState × Option Nat :=
  match alookup st.pending i with
  | some cb => ({ st with pending := adel st.pending i }, some cb)
  | none => (st, none)

/-- External stimuli of the relay: the two registration entry points and a
daemon response for some id. -/
inductive AuthEvent : Type
  | find (cb : Nat)
  | ask (cb : Nat)
  | response (i : Nat)
deriving DecidableEq, Repr

/-- A run of the relay: final state, the ids assigned to registrations in
order, and the (id, callback) invocations actually performed. -/
structure AuthRun : Type where
  state : AuthState
  assigned : List Nat
  invoked : List (Nat × Nat)
deriving DecidableEq, Repr

/-- One event of a relay run. -/
def auth_step (r : AuthRun) (e : AuthEvent) : AuthRun :=
  match e with
  | AuthEvent.find cb =>
    ⟨(find_http_auth r.state cb).1, r.assigned ++ [(find_http_auth r.state cb).2],
     r.invoked⟩
  | AuthEvent.ask cb =>
    ⟨(askForHTTPAuth r.state cb).1, r.assigned ++ [(askForHTTPAuth r.state cb).2],
     r.invoked⟩
  | AuthEvent.response i =>
    match handle_http_auth_response r.state i with
    | (st, some cb) => ⟨st, r.assigned, r.invoked ++ [(i, cb)]⟩
    | (st, none) => ⟨st, r.assigned, r.invoked⟩

/-- The relay run produced by a sequence of events from module load
(`count()` starts at 0, no pending callbacks). -/
def auth_run (evs : List AuthEvent) : AuthRun :=
  evs.foldl auth_step ⟨⟨0, []⟩, [], []⟩

/-- Inductive invariant of a relay run: the assigned ids are exactly
`0, 1, …, counter-1` in order; every pending id is below the counter; every
invoked id is below the counter and no longer pending; and no id is invoked
twice. -/
def AuthInv (r : AuthRun) : Prop :=
  r.assigned = List.range r.state.counter ∧
  (∀ k : Nat, (alookup r.state.pending k).isSome = true → k < r.state.counter) ∧
  (∀ q ∈ r.invoked, q.1 < r.state.counter ∧ alookup r.state.pending q.1 = none) ∧
  (r.invoked.map Prod.fst).Nodup

theorem AuthInv_step (r : AuthRun) (e : AuthEvent) (h : AuthInv r) :
    AuthInv (auth_step r e) := by
  obtain ⟨h1, h2, h3, h4⟩ := h
  match e with
  | AuthEvent.find cb | AuthEvent.ask cb =>
    refine ⟨?_, ?_, ?_, ?_⟩
    · simp [auth_step, find_http_auth, askForHTTPAuth, h1, List.range_succ]
    · intro k hk
      simp only [auth_step, find_http_auth, askForHTTPAuth] at hk ⊢
      rw [alookup_aset] at hk
      by_cases hkc : r.state.counter = k
      · omega
      · rw [if_neg hkc] at hk
        have := h2 k hk
        omega
    · intro q hq
      simp only [auth_step, find_http_auth, askForHTTPAuth] at hq ⊢
      obtain ⟨hlt, hnone⟩ := h3 q hq
      refine ⟨by omega, ?_⟩
      rw [alookup_aset, if_neg (by omega), hnone]
    · simpa [auth_step, find_http_auth, askForHTTPAuth] using h4
  | AuthEvent.response i =>
    match hm : alookup r.state.pending i with
    | some cb =>
      have hok : auth_step r (AuthEvent.response i) =
          ⟨⟨r.state.counter, adel r.state.pending i⟩, r.assigned,
           r.invoked ++ [(i, cb)]⟩ := by
        simp [auth_step, handle_http_auth_response, hm]
      rw [hok]
      refine ⟨h1, ?_, ?_, ?_⟩
      · intro k hk
        simp only at hk
        rw [alookup_adel] at hk
        by_cases hik : i = k
        · rw [if_pos hik] at hk
          simp at hk
        · rw [if_neg hik] at hk
          exact h2 k hk
      · intro q hq
        simp only [List.mem_append, List.mem_singleton] at hq
        rcases hq with hq | hq
        · obtain ⟨hlt, hnone⟩ := h3 q hq
          refine ⟨hlt, ?_⟩
          simp only
          rw [alookup_adel]
          by_cases hik : i = q.1
          · rw [if_pos hik]
          · rw [if_neg hik]
            exact hnone
        · subst hq
          refine ⟨h2 i (by rw [hm]; rfl), ?_⟩
          simp only
          rw [alookup_adel, if_pos rfl]
      · rw [List.map_append]
        simp only [List.map_cons, List.map_nil]
        rw [List.nodup_append]
        refine ⟨h4, List.nodup_singleton i, ?_⟩
        intro a ha hb
        simp only [List.mem_singleton] at hb
        subst hb
        obtain ⟨q, hq, hq1⟩ := List.mem_map.mp ha
        obtain ⟨_, hnone⟩ := h3 q hq
        rw [hq1] at hnone
        rw [hm] at hnone
        cases hnone
    | none =>
      have hfail : auth_step r (AuthEvent.response i) = ⟨r.state, r.assigned, r.invoked⟩ := by
        simp [auth_step, handle_http_auth_response, hm]
      rw [hfail]
      exact ⟨h1, h2, h3, h4⟩

theorem AuthInv_run (evs : List AuthEvent) : AuthInv (auth_run evs) := by
  rw [auth_run]
  have hinit : AuthInv ⟨⟨0, []⟩, [], []⟩ := by
    refine ⟨by rw [List.range_zero], fun k hk => by simp [alookup] at hk, by simp, by simp⟩
  generalize hstart : (⟨⟨0, []⟩, [], []⟩ : AuthRun) = r0 at hinit
  clear hstart
  induction evs generalizing r0 with
  | nil => simpa using hinit
  | cons e evs ih =>
    rw [List.foldl_cons]
    exact ih _ (AuthInv_step r0 e hinit)

/-- C10: every registration draws a fresh id from the shared monotonically
increasing counter (over any run the assigned ids are exactly
`0, 1, …, counter-1`, so no pending id is ever reused), each id's callback
is invoked at most once (the invoked ids are pairwise distinct because the
callback is popped from the pending table before being invoked), and a
second response for an already-answered id raises `KeyError` (no callback,
state unchanged) instead of re-invoking the callback. -/
theorem http_auth_callback_at_most_once (evs : List AuthEvent) :
    (auth_run evs).assigned = List.range (auth_run evs).state.counter ∧
    ((auth_run evs).invoked.map Prod.fst).Nodup ∧
    (∀ q ∈ (auth_run evs).invoked,
       handle_http_auth_response (auth_run evs).state q.1 =
         ((auth_run evs).state, none)) := by
  obtain ⟨h1, h2, h3, h4⟩ := AuthInv_run evs
  refine ⟨h1, h4, ?_⟩
  intro q hq
  obtain ⟨_, hnone⟩ := h3 q hq
  rw [handle_http_auth_response, hnone]

/-- C10 (witness): in a run with one registration and two responses for its
id, the callback is invoked exactly once and the second response fails with
a lookup error. -/
theorem http_auth_callback_at_most_once_witness :
    (auth_run [AuthEvent.find 7, AuthEvent.response 0, AuthEvent.response 0]).assigned =
      List.range
        (auth_run [AuthEvent.find 7, AuthEvent.response 0,
                   AuthEvent.response 0]).state.counter ∧
    ((auth_run [AuthEvent.find 7, AuthEvent.response 0,
                AuthEvent.response 0]).invoked.map Prod.fst).Nodup ∧
    handle_http_auth_response
        (auth_run [AuthEvent.find 7, AuthEvent.response 0,
                   AuthEvent.response 0]).state 0 =
      ((auth_run [AuthEvent.find 7, AuthEvent.response 0,
                  AuthEvent.response 0]).state, none) :=
  ⟨(http_auth_callback_at_most_once
      [AuthEvent.find 7, AuthEvent.response 0, AuthEvent.response 0]).1,
   (http_auth_callback_at_most_once
      [AuthEvent.find 7, AuthEvent.response 0, AuthEvent.response 0]).2.1,
   (http_auth_callback_at_most_once
      [AuthEvent.find 7, AuthEvent.response 0, AuthEvent.response 0]).2.2
     (0, 7) (by decide)⟩

end Miro
